import Mathlib

/-!
Verification development for the `verifile` file-verification engine.

Strings from the Rust source are modelled as `List Char` (`Str`); bytes as
`Nat` (`Bytes := List Nat`).  Each definition in the first part of the file
is a shallow embedding of a function of the Rust source; the doc comment
names the source location.
-/

set_option maxHeartbeats 1000000
set_option maxRecDepth 100000

abbrev Str := List Char

abbrev Bytes := List Nat

/-- Rust's `char::is_whitespace`: the Unicode `White_Space` property. -/
def rustIsWhitespace (c : Char) : Bool :=
  (0x0009 ≤ c.toNat && c.toNat ≤ 0x000D) || c.toNat = 0x0020 ||
  c.toNat = 0x0085 || c.toNat = 0x00A0 || c.toNat = 0x1680 ||
  (0x2000 ≤ c.toNat && c.toNat ≤ 0x200A) || c.toNat = 0x2028 ||
  c.toNat = 0x2029 || c.toNat = 0x202F || c.toNat = 0x205F ||
  c.toNat = 0x3000

/-- Rust's `str::trim`: drop leading and trailing Unicode whitespace. -/
def rustTrim (s : Str) : Str :=
  ((s.dropWhile rustIsWhitespace).reverse.dropWhile rustIsWhitespace).reverse

/-- Helper for `splitWhitespace`: `acc` holds the current token reversed. -/
def splitWsAux : Str → Str → List Str
  | [], acc => if acc.isEmpty then [] else [acc.reverse]
  | c :: rest, acc =>
    if rustIsWhitespace c then
      if acc.isEmpty then splitWsAux rest []
      else acc.reverse :: splitWsAux rest []
    else splitWsAux rest (c :: acc)

/-- Rust's `str::split_whitespace`: split on runs of Unicode whitespace,
yielding no empty tokens. -/
def splitWhitespace (s : Str) : List Str :=
  splitWsAux s []

/-- Helper for `rustLines`: `acc` holds the current line reversed.  On a
`'\n'` one trailing `'\r'` of the accumulated line is stripped (Rust strips
`'\r'` only when it directly precedes the `'\n'`); the final line keeps any
trailing `'\r'` and a final line terminator produces no extra empty line. -/
def rustLinesAux : Str → Str → List Str
  | [], acc => [acc.reverse]
  | c :: rest, acc =>
    if c = '\n' then
      let acc := match acc with
        | '\r' :: t => t
        | a => a
      if rest.isEmpty then [acc.reverse]
      else acc.reverse :: rustLinesAux rest []
    else rustLinesAux rest (c :: acc)

/-- Rust's `str::lines`: split at `'\n'` (with `"\r\n"` also accepted as a
terminator); the final line ending is optional; the empty string has no
lines. -/
def rustLines (s : Str) : List Str :=
  if s.isEmpty then [] else rustLinesAux s []

/-- Rust's `char::is_ascii_hexdigit`. -/
def isAsciiHexdigit (c : Char) : Bool :=
  ('0' ≤ c && c ≤ '9') || ('a' ≤ c && c ≤ 'f') || ('A' ≤ c && c ≤ 'F')

/-- Rust's `str::len`: length in UTF-8 bytes. -/
def rustByteLen (s : Str) : Nat :=
  (s.map Char.utf8Size).sum

/-- The inner token scan of `parse_first_hash_from_text`
(src/src/utils.rs lines 15-19): the first token that is all ASCII hex
digits and at least 16 bytes long. -/
def findHexToken : List Str → Option Str
  | [] => none
  | tok :: rest =>
    if tok.all isAsciiHexdigit && 16 ≤ rustByteLen tok then some tok
    else findHexToken rest

/-- The line loop of `parse_first_hash_from_text` (src/src/utils.rs):
skip blank lines; a single-token line returns its token verbatim; otherwise
return the first all-hex token of length ≥ 16, and if none qualifies the
loop continues with the next line. -/
def hashFromLines : List Str → Option Str
  | [] => none
  | line :: rest =>
    let t := rustTrim line
    if t.isEmpty then hashFromLines rest
    else
      let tokens := splitWhitespace t
      if tokens.length = 1 then tokens.head?
      else
        match findHexToken tokens with
        | some tok => some tok
        | none => hashFromLines rest

/-- `parse_first_hash_from_text` (src/src/utils.rs lines 5-22). -/
def parse_first_hash_from_text (s : Str) : Option Str :=
  hashFromLines (rustLines s)

example : parse_first_hash_from_text "abc123".toList = some "abc123".toList := by decide

example :
    parse_first_hash_from_text "d41d8cd98f00b204e9800998ecf8427e  myfile.bin".toList =
      some "d41d8cd98f00b204e9800998ecf8427e".toList := by decide

example :
    parse_first_hash_from_text "myfile.bin d41d8cd98f00b204e9800998ecf8427e".toList =
      some "d41d8cd98f00b204e9800998ecf8427e".toList := by decide

example : parse_first_hash_from_text "short abcd".toList = none := by decide

example :
    parse_first_hash_from_text "short abcd\nd41d8cd98f00b204e9800998ecf8427e".toList =
      some "d41d8cd98f00b204e9800998ecf8427e".toList := by decide

/-! ## Data model (src/src/models.rs) -/

/-- `Algorithm` (src/src/models.rs lines 6-12). -/
inductive Algorithm where
  | Blake3
  | Sha256
  | Sha512
  | Sha3_256
  | Md5
deriving DecidableEq, Repr

/-- `VerificationStatus` (src/src/models.rs lines 36-40). -/
inductive VerificationStatus where
  | Success
  | Failed
  | InProgress
deriving DecidableEq, Repr

/-- `chrono::DateTime<chrono::Utc>`: seconds since the Unix epoch plus a
subsecond nanosecond component. -/
structure Timestamp where
  secs : Int
  nanos : Nat
deriving DecidableEq, Repr

/-- `VerificationRecord` (src/src/models.rs lines 43-54).  `file_path` is a
`PathBuf` in the source, modelled as its string form. -/
structure VerificationRecord where
  id : Str
  file_name : Str
  file_path : Str
  algorithm : Algorithm
  computed_hash : Str
  reference_hash : Option Str
  status : VerificationStatus
  timestamp : Timestamp
deriving DecidableEq, Repr

/-! ## Orchestrator logic (src/src/gui.rs) -/

/-- `VerificationStep` (src/src/gui.rs lines 19-24). -/
inductive VerificationStep where
  | UploadFile
  | UploadHash
  | Verifying
  | Result
deriving DecidableEq, Repr

/-- The engine-relevant fields of `VeriFileApp` (src/src/gui.rs lines
47-61); presentation-only fields (`show_history`, `theme`) are omitted. -/
structure VeriFileApp where
  chosen_file : Option Str
  algorithm : Algorithm
  paste_hash : Str
  status_message : Str
  current_step : VerificationStep
  is_verifying : Bool
  last_result : Option VerificationRecord
  past : List VerificationRecord
deriving DecidableEq, Repr

/-- Rust's `u8::to_ascii_lowercase` lifted to chars; `eq_ignore_ascii_case`
compares UTF-8 bytes after this mapping, and byte-sequence equality after
ASCII lowercasing coincides with char-sequence equality after it (the
affected bytes `0x41`-`0x5A` occur only as ASCII chars in UTF-8). -/
def asciiLowerChar (c : Char) : Char :=
  if 'A' ≤ c && c ≤ 'Z' then Char.ofNat (c.toNat + 32) else c

/-- Rust's `str::eq_ignore_ascii_case`. -/
def eqIgnoreAsciiCase (a b : Str) : Bool :=
  a.map asciiLowerChar == b.map asciiLowerChar

/-- The reference normalization of the `StartVerify` arm (src/src/gui.rs
line 133): blank pasted text means no reference, otherwise the pasted text
is kept verbatim. -/
def refHashOf (paste_hash : Str) : Option Str :=
  if (rustTrim paste_hash).isEmpty then none else some paste_hash

/-- The status computation of the `StartVerify` arm (src/src/gui.rs lines
141-146): with a reference, compare it trimmed and ASCII-case-insensitively
against the computed hex; without one, `Success`. -/
def outcomeStatus (ref_hash : Option Str) (hex : Str) : VerificationStatus :=
  match ref_hash with
  | some rh =>
    if eqIgnoreAsciiCase (rustTrim rh) hex then VerificationStatus.Success
    else VerificationStatus.Failed
  | none => VerificationStatus.Success

/-- `path.file_name().and_then(|s| s.to_str()).unwrap_or("file")`
(src/src/gui.rs line 149): the last nonempty `/`-separated component;
`Path::file_name` returns `None` when the path ends in `..` or has no
component, in which case the fallback `"file"` is used. -/
def fileNameOf (p : Str) : Str :=
  match ((p.splitOn '/').filter (fun c => !c.isEmpty)).getLast? with
  | none => "file".toList
  | some last => if last = ['.', '.'] then "file".toList else last

/-- The async body of the `StartVerify` arm (src/src/gui.rs lines 135-161):
given the outcome of `compute_file_hash` (an I/O action, passed in as
`computed`), the normalized reference, and the environment-supplied fresh
uuid `newId` and clock reading `now`, either build the record or format the
error message. -/
def startVerifyOutcome (computed : Except Str (Str × Str × Algorithm))
    (ref_hash : Option Str) (newId : Str) (now : Timestamp) :
    Except Str VerificationRecord :=
  match computed with
  | Except.ok (hex, path, algo) =>
    Except.ok
      { id := newId
        file_name := fileNameOf path
        file_path := path
        algorithm := algo
        computed_hash := hex
        reference_hash := ref_hash
        status := outcomeStatus ref_hash hex
        timestamp := now }
  | Except.error e => Except.error ("Hash compute error: ".toList ++ e)

/-- The state mutation of the `StartVerify` arm (src/src/gui.rs lines
126-134): with a chosen file, set the status message, enter `Verifying`,
and hand `(path, algorithm, normalized reference)` to the spawned task;
with no chosen file, do nothing. -/
def startVerifyState (st : VeriFileApp) :
    VeriFileApp × Option (Str × Algorithm × Option Str) :=
  match st.chosen_file with
  | some path =>
    ({ st with
        status_message := "Computing hash...".toList
        current_step := VerificationStep.Verifying
        is_verifying := true },
      some (path, st.algorithm, refHashOf st.paste_hash))
  | none => (st, none)

/-- The status message chosen in the `VerifyComplete` arm (src/src/gui.rs
lines 169-173). -/
def statusMessageFor (s : VerificationStatus) : Str :=
  match s with
  | VerificationStatus.Success => "✓ Verification successful!".toList
  | VerificationStatus.Failed => "✗ Verification failed - hash mismatch!".toList
  | VerificationStatus.InProgress => "In progress...".toList

/-- The `VerifyComplete` arm (src/src/gui.rs lines 163-185).  The second
component is the argument handed to `storage::save_all` (`none` when it is
not invoked); `saveResult` is `save_all`'s return value, which the source
discards (`let _ = ...`). -/
def verifyComplete (st : VeriFileApp) (result : Except Str VerificationRecord)
    (saveResult : Except Str Unit) :
    VeriFileApp × Option (List VerificationRecord) :=
  let st := { st with is_verifying := false, current_step := VerificationStep.Result }
  match result with
  | Except.ok rec =>
    let past := rec :: st.past
    let _ := saveResult
    ({ st with
        status_message := statusMessageFor rec.status
        last_result := some rec
        past := past },
      some past)
  | Except.error e =>
    ({ st with status_message := "Error: ".toList ++ e, last_result := none },
      none)

/-! ## Digest engine (src/src/hashers.rs) -/

/-- The lowercase hex digit for a nibble, as produced by `hex::encode`,
`blake3`'s `to_hex` and `format!("\x7b:x\x7d")`. -/
def hexDigitChar (n : Nat) : Char :=
  if n < 10 then Char.ofNat ('0'.toNat + n) else Char.ofNat ('a'.toNat + (n - 10))

/-- Lowercase hex encoding of a byte sequence, two digits per byte, no
separators. -/
def hexEncode (bs : Bytes) : Str :=
  (bs.map (fun b => [hexDigitChar (b / 16 % 16), hexDigitChar (b % 16)])).flatten

/-- Modelled from the spec: the streaming hash primitives come from the
external crates `blake3`, `sha2`, `sha3` and `md5`, which are not part of
src/.  Each is an incremental hasher: a state, an initial state
(`Hasher::new` / `Context::new`), a per-chunk `update`/`consume`, and a
`finalize` producing the raw digest bytes. -/
structure StreamHasher where
  State : Type
  init : State
  update : State → Bytes → State
  finalize : State → Bytes

/-- The streaming property of an incremental hash primitive, from the spec:
feeding bytes incrementally in order is the same as feeding them at once,
and feeding nothing changes nothing.  This is the contract of the external
crates' `update`/`consume`. -/
def StreamHasher.Lawful (H : StreamHasher) : Prop :=
  (∀ s, H.update s [] = s) ∧
  (∀ s a b, H.update s (a ++ b) = H.update (H.update s a) b)

/-- The raw digest size in bytes of each algorithm, from the spec (hex
lengths 64/64/128/64/32). -/
def digestSizeBytes : Algorithm → Nat
  | Algorithm.Blake3 => 32
  | Algorithm.Sha256 => 32
  | Algorithm.Sha512 => 64
  | Algorithm.Sha3_256 => 32
  | Algorithm.Md5 => 16

/-- A fixed-size primitive: `finalize` always yields `digestSizeBytes`
bytes, each a byte value. -/
def FixedSize (H : StreamHasher) (alg : Algorithm) : Prop :=
  ∀ s, (H.finalize s).length = digestSizeBytes alg ∧ ∀ b ∈ H.finalize s, b < 256

/-- `compute_hash_for_reader` (src/src/hashers.rs lines 5-62), with the
reader modelled as the list of chunks its successive `read` calls return
(the loop stops at the first empty read, so `chunks` is the split of the
stream's bytes that the reader happened to produce) and the five crates'
primitives supplied as `H`.  Each arm mirrors the source: fold the chunks
through the primitive's update, finalize, hex-encode lowercase. -/
def compute_hash_for_reader (H : Algorithm → StreamHasher)
    (chunks : List Bytes) (algorithm : Algorithm) : Str :=
  match algorithm with
  | Algorithm.Blake3 =>
    let hasher := H Algorithm.Blake3
    hexEncode (hasher.finalize (chunks.foldl hasher.update hasher.init))
  | Algorithm.Sha256 =>
    let hasher := H Algorithm.Sha256
    hexEncode (hasher.finalize (chunks.foldl hasher.update hasher.init))
  | Algorithm.Sha512 =>
    let hasher := H Algorithm.Sha512
    hexEncode (hasher.finalize (chunks.foldl hasher.update hasher.init))
  | Algorithm.Sha3_256 =>
    let hasher := H Algorithm.Sha3_256
    hexEncode (hasher.finalize (chunks.foldl hasher.update hasher.init))
  | Algorithm.Md5 =>
    let hasher := H Algorithm.Md5
    hexEncode (hasher.finalize (chunks.foldl hasher.update hasher.init))

/-- A toy lawful fixed-size primitive used to witness satisfiability of the
streaming laws: state is the bytes consumed so far, digest is a padded
running sum. -/
def toyHasher (alg : Algorithm) : StreamHasher where
  State := Bytes
  init := []
  update := fun s c => s ++ c
  finalize := fun s => List.replicate (digestSizeBytes alg) (s.foldl (· + ·) 0 % 256)

/-! ## History store (src/src/storage.rs, serialization from src/src/models.rs) -/

/-- JSON values, restricted to the forms the record serialization uses
(numbers are integers: `ts_seconds` writes an `i64`). -/
inductive Json where
  | null
  | num (n : Int)
  | str (s : Str)
  | arr (elems : List Json)
  | obj (fields : List (Str × Json))
deriving Repr

/-- Serde's externally-tagged encoding of the unit variants of `Algorithm`
(src/src/models.rs lines 5-12): the variant name as a JSON string. -/
def algorithmToJson (a : Algorithm) : Json :=
  match a with
  | Algorithm.Blake3 => Json.str "Blake3".toList
  | Algorithm.Sha256 => Json.str "Sha256".toList
  | Algorithm.Sha512 => Json.str "Sha512".toList
  | Algorithm.Sha3_256 => Json.str "Sha3_256".toList
  | Algorithm.Md5 => Json.str "Md5".toList

/-- Serde's decoding of `Algorithm`. -/
def algorithmFromJson (j : Json) : Option Algorithm :=
  match j with
  | Json.str s =>
    if s = "Blake3".toList then some Algorithm.Blake3
    else if s = "Sha256".toList then some Algorithm.Sha256
    else if s = "Sha512".toList then some Algorithm.Sha512
    else if s = "Sha3_256".toList then some Algorithm.Sha3_256
    else if s = "Md5".toList then some Algorithm.Md5
    else none
  | _ => none

/-- Serde's encoding of `VerificationStatus` (src/src/models.rs lines
35-40). -/
def statusToJson (s : VerificationStatus) : Json :=
  match s with
  | VerificationStatus.Success => Json.str "Success".toList
  | VerificationStatus.Failed => Json.str "Failed".toList
  | VerificationStatus.InProgress => Json.str "InProgress".toList

/-- Serde's decoding of `VerificationStatus`. -/
def statusFromJson (j : Json) : Option VerificationStatus :=
  match j with
  | Json.str s =>
    if s = "Success".toList then some VerificationStatus.Success
    else if s = "Failed".toList then some VerificationStatus.Failed
    else if s = "InProgress".toList then some VerificationStatus.InProgress
    else none
  | _ => none

/-- Serde's encoding of `Option<String>`: `null` or the string. -/
def optStrToJson (o : Option Str) : Json :=
  match o with
  | none => Json.null
  | some s => Json.str s

/-- Serde's decoding of `Option<String>`. -/
def optStrFromJson (j : Json) : Option (Option Str) :=
  match j with
  | Json.null => some none
  | Json.str s => some (some s)
  | _ => none

/-- Serde's derived `Serialize` for `VerificationRecord` (src/src/models.rs
lines 42-54): an object with the fields in declaration order; the
`timestamp` field uses `chrono::serde::ts_seconds`, writing the integer
count of whole seconds since the Unix epoch (UTC) and discarding the
subsecond component. -/
def recordToJson (r : VerificationRecord) : Json :=
  Json.obj
    [("id".toList, Json.str r.id),
     ("file_name".toList, Json.str r.file_name),
     ("file_path".toList, Json.str r.file_path),
     ("algorithm".toList, algorithmToJson r.algorithm),
     ("computed_hash".toList, Json.str r.computed_hash),
     ("reference_hash".toList, optStrToJson r.reference_hash),
     ("status".toList, statusToJson r.status),
     ("timestamp".toList, Json.num r.timestamp.secs)]

/-- First binding of a key in a JSON object, as serde field lookup. -/
def jLookup (k : Str) : List (Str × Json) → Option Json
  | [] => none
  | (k', v) :: rest => if k' = k then some v else jLookup k rest

/-- Decode a JSON string. -/
def jString (j : Json) : Option Str :=
  match j with
  | Json.str s => some s
  | _ => none

/-- Decode a JSON integer. -/
def jInt (j : Json) : Option Int :=
  match j with
  | Json.num n => some n
  | _ => none

/-- Serde's derived `Deserialize` for `VerificationRecord`: every field
must be present and well-typed; `ts_seconds` reads the integer seconds and
yields a timestamp with zero subsecond nanoseconds. -/
def recordFromJson (j : Json) : Option VerificationRecord :=
  match j with
  | Json.obj fs =>
    (jLookup "id".toList fs).bind fun j0 =>
    (jString j0).bind fun id =>
    (jLookup "file_name".toList fs).bind fun j1 =>
    (jString j1).bind fun file_name =>
    (jLookup "file_path".toList fs).bind fun j2 =>
    (jString j2).bind fun file_path =>
    (jLookup "algorithm".toList fs).bind fun j3 =>
    (algorithmFromJson j3).bind fun algorithm =>
    (jLookup "computed_hash".toList fs).bind fun j4 =>
    (jString j4).bind fun computed_hash =>
    (jLookup "reference_hash".toList fs).bind fun j5 =>
    (optStrFromJson j5).bind fun reference_hash =>
    (jLookup "status".toList fs).bind fun j6 =>
    (statusFromJson j6).bind fun status =>
    (jLookup "timestamp".toList fs).bind fun j7 =>
    (jInt j7).bind fun secs =>
    some
      { id := id
        file_name := file_name
        file_path := file_path
        algorithm := algorithm
        computed_hash := computed_hash
        reference_hash := reference_hash
        status := status
        timestamp := ⟨secs, 0⟩ }
  | _ => none

/-- Serde's `Serialize` for `Vec<VerificationRecord>`: a JSON array in
order. -/
def recordsToJson (rs : List VerificationRecord) : Json :=
  Json.arr (rs.map recordToJson)

/-- Element-wise decoding of a record list; any failing element fails the
whole list, as serde does. -/
def recordListFromJson : List Json → Option (List VerificationRecord)
  | [] => some []
  | j :: rest =>
    match recordFromJson j, recordListFromJson rest with
    | some r, some rs => some (r :: rs)
    | _, _ => none

/-- Serde's `Deserialize` for `Vec<VerificationRecord>`. -/
def recordsFromJson (j : Json) : Option (List VerificationRecord) :=
  match j with
  | Json.arr xs => recordListFromJson xs
  | _ => none

/-- `save_all` (src/src/storage.rs lines 16-20), with
`serde_json::to_string_pretty`'s value-to-text layer passed in as `print`
(the crate is external to src/): the file content written is the printed
serialization of the whole record list. -/
def save_all (print : Json → Str) (records : List VerificationRecord) : Str :=
  print (recordsToJson records)

/-- `load_all` (src/src/storage.rs lines 9-14), with `serde_json`'s
text-to-value layer passed in as `parse`.  `pathExists` models
`path.exists()`; `readResult` models `fs::read_to_string` (`none` is a read
error, turned into `""` by `unwrap_or_default`); a parse or decode failure
is turned into `[]` by the second `unwrap_or_default`. -/
def load_all (parse : Str → Option Json) (pathExists : Bool)
    (readResult : Option Str) : List VerificationRecord :=
  if pathExists then
    (((parse (readResult.getD [])).bind recordsFromJson).getD [])
  else []

/-- Truncation of a record's timestamp to whole seconds: what one
verification-record round trip through the store preserves. -/
def truncRecord (r : VerificationRecord) : VerificationRecord :=
  { r with timestamp := ⟨r.timestamp.secs, 0⟩ }

/-! A concrete value-to-text layer (compact JSON printer and parser), used
to instantiate the parametric `print`/`parse` of the store in witnesses. -/

/-- Decimal digits of a natural number. -/
def natToStr (n : Nat) : Str :=
  Nat.toDigits 10 n

/-- Decimal form of an integer. -/
def intToStr (n : Int) : Str :=
  if n < 0 then '-' :: natToStr n.natAbs else natToStr n.natAbs

/-- Escape backslashes and quotes inside a printed JSON string. -/
def escapeStr (s : Str) : Str :=
  (s.map (fun c => if c = '"' || c = '\\' then ['\\', c] else [c])).flatten

/-- Interleave commas between printed items. -/
def commaSep : List Str → Str
  | [] => []
  | [x] => x
  | x :: rest => x ++ ',' :: commaSep rest

mutual

/-- Compact JSON printing. -/
def jsonPrint : Json → Str
  | Json.null => "null".toList
  | Json.num n => intToStr n
  | Json.str s => '"' :: (escapeStr s ++ ['"'])
  | Json.arr xs => '[' :: (commaSep (jsonPrintList xs) ++ [']'])
  | Json.obj fs => '{' :: (commaSep (jsonPrintObj fs) ++ ['}'])

/-- Print each array element. -/
def jsonPrintList : List Json → List Str
  | [] => []
  | j :: rest => jsonPrint j :: jsonPrintList rest

/-- Print each object field as `"key":value`. -/
def jsonPrintObj : List (Str × Json) → List Str
  | [] => []
  | (k, v) :: rest =>
    ('"' :: (escapeStr k ++ '"' :: ':' :: jsonPrint v)) :: jsonPrintObj rest

end

/-- Parse a nonempty run of decimal digits. -/
def parseNatTok (s : Str) : Option (Nat × Str) :=
  let ds := s.takeWhile Char.isDigit
  if ds.isEmpty then none
  else some (ds.foldl (fun a c => a * 10 + (c.toNat - '0'.toNat)) 0, s.dropWhile Char.isDigit)

/-- Parse a JSON string body after the opening quote, up to and including
the closing quote, undoing the escaping. -/
def parseStrBody : Str → Option (Str × Str)
  | [] => none
  | '"' :: rest => some ([], rest)
  | '\\' :: c :: rest => (parseStrBody rest).map fun p => (c :: p.1, p.2)
  | c :: rest => (parseStrBody rest).map fun p => (c :: p.1, p.2)

mutual

/-- Fuel-based parser for the output of `jsonPrint`. -/
def jsonParseF : Nat → Str → Option (Json × Str)
  | 0, _ => none
  | _ + 1, 'n' :: 'u' :: 'l' :: 'l' :: rest => some (Json.null, rest)
  | _ + 1, '"' :: rest => (parseStrBody rest).map fun p => (Json.str p.1, p.2)
  | _ + 1, '-' :: rest => (parseNatTok rest).map fun p => (Json.num (-(p.1 : Int)), p.2)
  | fuel + 1, '[' :: rest =>
    (match rest with
     | ']' :: r => some (Json.arr [], r)
     | _ => (jsonParseElems fuel rest).map fun p => (Json.arr p.1, p.2))
  | fuel + 1, '{' :: rest =>
    (match rest with
     | '}' :: r => some (Json.obj [], r)
     | _ => (jsonParseFields fuel rest).map fun p => (Json.obj p.1, p.2))
  | _ + 1, s => (parseNatTok s).map fun p => (Json.num (p.1 : Int), p.2)

/-- Parse array elements up to and including the closing bracket. -/
def jsonParseElems : Nat → Str → Option (List Json × Str)
  | 0, _ => none
  | fuel + 1, s =>
    (jsonParseF fuel s).bind fun p =>
      match p.2 with
      | ',' :: rest => (jsonParseElems fuel rest).map fun q => (p.1 :: q.1, q.2)
      | ']' :: rest => some ([p.1], rest)
      | _ => none

/-- Parse object fields up to and including the closing brace. -/
def jsonParseFields : Nat → Str → Option (List (Str × Json) × Str)
  | 0, _ => none
  | fuel + 1, '"' :: s =>
    (parseStrBody s).bind fun k =>
      match k.2 with
      | ':' :: rest =>
        (jsonParseF fuel rest).bind fun v =>
          match v.2 with
          | ',' :: rest2 => (jsonParseFields fuel rest2).map fun q => ((k.1, v.1) :: q.1, q.2)
          | '}' :: rest2 => some ([(k.1, v.1)], rest2)
          | _ => none
      | _ => none
  | _ + 1, _ => none

end

/-- Top-level parse of a complete JSON text. -/
def jsonParse (s : Str) : Option Json :=
  match jsonParseF (2 * s.length + 2) s with
  | some (v, []) => some v
  | _ => none

lemma utf8Size_of_hex (c : Char) (h : isAsciiHexdigit c = true) : c.utf8Size = 1 := by
  simp [isAsciiHexdigit, Char.le_def] at h
  have hv : c.val ≤ 127 := by
    rcases h with (⟨_, h2⟩ | ⟨_, h2⟩) | ⟨_, h2⟩ <;> exact UInt32.le_trans h2 (by decide)
  simp [Char.utf8Size, hv]

lemma rustByteLen_of_hex (tok : Str) (h : tok.all isAsciiHexdigit = true) :
    rustByteLen tok = tok.length := by
  induction tok with
  | nil => rfl
  | cons c t ih =>
    simp only [List.all_cons, Bool.and_eq_true] at h
    simp only [rustByteLen, List.map_cons, List.sum_cons, List.length_cons] at *
    rw [utf8Size_of_hex c h.1, ih h.2]
    omega

/-- The spec's qualifying-token test: all ASCII hex digits and at least 16
characters. -/
def hexTokenSpec (tok : Str) : Bool :=
  tok.all isAsciiHexdigit && decide (16 ≤ tok.length)

lemma findHexToken_eq_find? (ts : List Str) :
    findHexToken ts = ts.find? hexTokenSpec := by
  induction ts with
  | nil => rfl
  | cons tok rest ih =>
    by_cases hall : tok.all isAsciiHexdigit = true
    · have hb := rustByteLen_of_hex tok hall
      by_cases h16 : 16 ≤ tok.length
      · simp [findHexToken, List.find?, hexTokenSpec, hall, hb, h16]
      · simp [findHexToken, List.find?, hexTokenSpec, hall, hb, h16, ih]
    · have hall2 : tok.all isAsciiHexdigit = false := by
        cases hq : tok.all isAsciiHexdigit with
        | true => exact absurd hq hall
        | false => rfl
      simp [findHexToken, List.find?, hexTokenSpec, hall2, ih]

lemma hashFromLines_blanks (blanks ls : List Str)
    (h : ∀ b ∈ blanks, (rustTrim b).isEmpty = true) :
    hashFromLines (blanks ++ ls) = hashFromLines ls := by
  induction blanks with
  | nil => rfl
  | cons b bs ih =>
    have hb : (rustTrim b).isEmpty = true := h b (by simp)
    simp only [List.cons_append, hashFromLines, hb, if_pos]
    exact ih (fun x hx => h x (by simp [hx]))

lemma foldl_update_flatten (H : StreamHasher) (law : H.Lawful) (chunks : List Bytes) :
    ∀ s, chunks.foldl H.update s = H.update s chunks.flatten := by
  induction chunks with
  | nil => intro s; simp [law.1]
  | cons c cs ih =>
    intro s
    simp only [List.foldl_cons, List.flatten_cons, law.2]
    exact ih (H.update s c)

lemma compute_hash_eq_oneshot (H : Algorithm → StreamHasher) (alg : Algorithm)
    (law : (H alg).Lawful) (chunks : List Bytes) :
    compute_hash_for_reader H chunks alg =
      hexEncode ((H alg).finalize ((H alg).update (H alg).init chunks.flatten)) := by
  cases alg <;>
    simp [compute_hash_for_reader, foldl_update_flatten _ law]

lemma hexEncode_length (bs : Bytes) : (hexEncode bs).length = 2 * bs.length := by
  induction bs with
  | nil => rfl
  | cons b t ih =>
    simp [hexEncode, List.flatten_cons] at *
    omega

/-- Lowercase hex digit characters. -/
def isLowerHexChar (c : Char) : Bool :=
  ('0' ≤ c && c ≤ '9') || ('a' ≤ c && c ≤ 'f')

lemma hexDigitChar_lower (n : Nat) (h : n < 16) : isLowerHexChar (hexDigitChar n) = true := by
  interval_cases n <;> decide

lemma hexEncode_lower (bs : Bytes) : ∀ c ∈ hexEncode bs, isLowerHexChar c = true := by
  induction bs with
  | nil => intro c hc; cases hc
  | cons b t ih =>
    intro c hc
    simp only [hexEncode, List.map_cons, List.flatten_cons, List.mem_append,
      List.mem_cons, List.not_mem_nil, or_false] at hc
    rcases hc with (h | h) | h2
    · subst h; exact hexDigitChar_lower _ (Nat.mod_lt _ (by omega))
    · subst h; exact hexDigitChar_lower _ (Nat.mod_lt _ (by omega))
    · exact ih c h2

lemma recordFromJson_recordToJson (r : VerificationRecord) :
    recordFromJson (recordToJson r) = some (truncRecord r) := by
  obtain ⟨id, fn, fp, alg, ch, rh, st, ⟨secs, nanos⟩⟩ := r
  cases alg <;> cases st <;> cases rh <;> rfl

lemma recordListFromJson_map (rs : List VerificationRecord) :
    recordListFromJson (rs.map recordToJson) = some (rs.map truncRecord) := by
  induction rs with
  | nil => rfl
  | cons r t ih =>
    simp [recordListFromJson, recordFromJson_recordToJson, ih]

/-- C1: for a verification started with a chosen file, blank pasted
reference text is normalized to "no reference" and the record's status is
`Success` regardless of the computed digest; non-blank reference text gives
`Success` exactly when the pasted text, trimmed of surrounding whitespace,
equals the computed hex digest under ASCII-case-insensitive comparison, and
`Failed` otherwise. -/
theorem outcome_policy (st : VeriFileApp) (path hex newId : Str) (algo : Algorithm)
    (now : Timestamp) (rec : VerificationRecord)
    (hfile : st.chosen_file = some path)
    (hrec : startVerifyOutcome (Except.ok (hex, path, algo)) (refHashOf st.paste_hash)
      newId now = Except.ok rec) :
    (startVerifyState st).2 = some (path, st.algorithm, refHashOf st.paste_hash) ∧
    ((rustTrim st.paste_hash).isEmpty = true →
      refHashOf st.paste_hash = none ∧ rec.status = VerificationStatus.Success) ∧
    ((rustTrim st.paste_hash).isEmpty = false →
      (rec.status = VerificationStatus.Success ↔
        (rustTrim st.paste_hash).map asciiLowerChar = hex.map asciiLowerChar) ∧
      (rec.status = VerificationStatus.Failed ↔
        (rustTrim st.paste_hash).map asciiLowerChar ≠ hex.map asciiLowerChar)) := by
  simp only [startVerifyOutcome, Except.ok.injEq] at hrec
  subst hrec
  refine ⟨by simp [startVerifyState, hfile], ?_, ?_⟩
  · intro hb
    simp [refHashOf, hb, outcomeStatus]
  · intro hnb
    by_cases hcmp : (rustTrim st.paste_hash).map asciiLowerChar = hex.map asciiLowerChar <;>
      simp [refHashOf, hnb, outcomeStatus, eqIgnoreAsciiCase, hcmp]

/-- A concrete app state used to instantiate theorems: a chosen file and
blank pasted reference text. -/
def demoAppBlank : VeriFileApp :=
  { chosen_file := some "/tmp/a".toList
    algorithm := Algorithm.Sha256
    paste_hash := "  ".toList
    status_message := []
    current_step := VerificationStep.UploadHash
    is_verifying := false
    last_result := none
    past := [] }

/-- The record the orchestrator builds for `demoAppBlank` and computed
digest `"ab"`. -/
def demoRecBlank : VerificationRecord :=
  { id := "id1".toList
    file_name := "a".toList
    file_path := "/tmp/a".toList
    algorithm := Algorithm.Sha256
    computed_hash := "ab".toList
    reference_hash := none
    status := VerificationStatus.Success
    timestamp := ⟨0, 0⟩ }

/-- C1 witness: blank pasted text is normalized to no reference and the
record's status is `Success`. -/
theorem outcome_policy_witness :
    refHashOf demoAppBlank.paste_hash = none ∧
    demoRecBlank.status = VerificationStatus.Success := by
  have h := outcome_policy demoAppBlank "/tmp/a".toList "ab".toList "id1".toList
    Algorithm.Sha256 ⟨0, 0⟩ demoRecBlank rfl rfl
  exact h.2.1 (by decide)

/-- C10: when the pasted reference text has a non-empty trim, the
constructed record stores it verbatim (un-trimmed, original case) in
`reference_hash` and the computed hex verbatim in `computed_hash`;
trimming and ASCII-case-insensitive comparison enter only the status. -/
theorem reference_stored_verbatim (paste path hex newId : Str) (algo : Algorithm)
    (now : Timestamp) (rec : VerificationRecord)
    (hnb : (rustTrim paste).isEmpty = false)
    (hrec : startVerifyOutcome (Except.ok (hex, path, algo)) (refHashOf paste)
      newId now = Except.ok rec) :
    rec.reference_hash = some paste ∧
    rec.computed_hash = hex ∧
    (rec.status = VerificationStatus.Success ↔
      (rustTrim paste).map asciiLowerChar = hex.map asciiLowerChar) := by
  simp only [startVerifyOutcome, Except.ok.injEq] at hrec
  subst hrec
  refine ⟨by simp [refHashOf, hnb], rfl, ?_⟩
  by_cases hcmp : (rustTrim paste).map asciiLowerChar = hex.map asciiLowerChar <;>
    simp [refHashOf, hnb, outcomeStatus, eqIgnoreAsciiCase, hcmp]

/-- The record the orchestrator builds for pasted text `" DEADBEEF "` and
computed digest `"deadbeef"`. -/
def demoRecRef : VerificationRecord :=
  { id := "id2".toList
    file_name := "a".toList
    file_path := "/tmp/a".toList
    algorithm := Algorithm.Sha256
    computed_hash := "deadbeef".toList
    reference_hash := some " DEADBEEF ".toList
    status := VerificationStatus.Success
    timestamp := ⟨0, 0⟩ }

/-- C10 witness: a `Success` record whose stored reference text differs
textually (whitespace, case) from its computed hash. -/
theorem reference_stored_verbatim_witness :
    demoRecRef.reference_hash = some " DEADBEEF ".toList ∧
    demoRecRef.status = VerificationStatus.Success ∧
    demoRecRef.reference_hash ≠ some demoRecRef.computed_hash := by
  have h := reference_stored_verbatim " DEADBEEF ".toList "/tmp/a".toList "deadbeef".toList
    "id2".toList Algorithm.Sha256 ⟨0, 0⟩ demoRecRef (by decide) rfl
  exact ⟨h.1, h.2.2.mpr (by decide), by decide⟩

/-- C7: a digest-computation failure is turned into the error message and
the completion arm then creates no record, leaves the in-memory history
unchanged, does not invoke `save_all`, and only sets the error status
message. -/
theorem compute_failure_no_record (st : VeriFileApp) (e : Str) (ref : Option Str)
    (newId : Str) (now : Timestamp) (sr : Except Str Unit) (msg : Str) :
    startVerifyOutcome (Except.error e) ref newId now =
      Except.error ("Hash compute error: ".toList ++ e) ∧
    (verifyComplete st (Except.error msg) sr).1.past = st.past ∧
    (verifyComplete st (Except.error msg) sr).2 = none ∧
    (verifyComplete st (Except.error msg) sr).1.last_result = none ∧
    (verifyComplete st (Except.error msg) sr).1.status_message = "Error: ".toList ++ msg :=
  ⟨rfl, rfl, rfl, rfl, rfl⟩

/-- C8: on a successful computation the record carries the fresh id and the
clock reading, is inserted at the front of the unchanged previous history,
the full new sequence is handed to `save_all`, and the resulting state does
not depend on `save_all`'s outcome. -/
theorem success_inserts_front (st : VeriFileApp) (hex path newId : Str) (algo : Algorithm)
    (ref : Option Str) (now : Timestamp) (rec : VerificationRecord)
    (sr sr2 : Except Str Unit)
    (hrec : startVerifyOutcome (Except.ok (hex, path, algo)) ref newId now = Except.ok rec) :
    rec.id = newId ∧ rec.timestamp = now ∧
    (verifyComplete st (Except.ok rec) sr).1.past = rec :: st.past ∧
    (verifyComplete st (Except.ok rec) sr).2 = some (rec :: st.past) ∧
    (verifyComplete st (Except.ok rec) sr).1 = (verifyComplete st (Except.ok rec) sr2).1 := by
  simp only [startVerifyOutcome, Except.ok.injEq] at hrec
  subst hrec
  exact ⟨rfl, rfl, rfl, rfl, rfl⟩

/-- C8 witness: instantiated with a failing save result, showing the
insertion survives it. -/
theorem success_inserts_front_witness :
    demoRecBlank.id = "id1".toList ∧ demoRecBlank.timestamp = ⟨0, 0⟩ ∧
    (verifyComplete demoAppBlank (Except.ok demoRecBlank)
        (Except.error "disk full".toList)).1.past = demoRecBlank :: demoAppBlank.past ∧
    (verifyComplete demoAppBlank (Except.ok demoRecBlank)
        (Except.error "disk full".toList)).1 =
      (verifyComplete demoAppBlank (Except.ok demoRecBlank) (Except.ok ())).1 := by
  have h := success_inserts_front demoAppBlank "ab".toList "/tmp/a".toList "id1".toList
    Algorithm.Sha256 (refHashOf demoAppBlank.paste_hash) ⟨0, 0⟩ demoRecBlank
    (Except.error "disk full".toList) (Except.ok ()) rfl
  exact ⟨h.1, h.2.1, h.2.2.1, h.2.2.2.2⟩

/-- C9: a successfully constructed record's status is `Success` or
`Failed`, never `InProgress`; hence if the prior history is free of
`InProgress`, so is every sequence handed to `save_all`. -/
theorem no_inprogress_persisted (computed : Except Str (Str × Str × Algorithm))
    (ref : Option Str) (newId : Str) (now : Timestamp) (rec : VerificationRecord)
    (hrec : startVerifyOutcome computed ref newId now = Except.ok rec) :
    (rec.status = VerificationStatus.Success ∨ rec.status = VerificationStatus.Failed) ∧
    rec.status ≠ VerificationStatus.InProgress ∧
    ∀ (st : VeriFileApp) (sr : Except Str Unit) (l : List VerificationRecord),
      (verifyComplete st (Except.ok rec) sr).2 = some l →
      (∀ r ∈ st.past, r.status ≠ VerificationStatus.InProgress) →
      ∀ r ∈ l, r.status ≠ VerificationStatus.InProgress := by
  cases computed with
  | error e => simp [startVerifyOutcome] at hrec
  | ok v =>
    obtain ⟨hex, path, algo⟩ := v
    simp only [startVerifyOutcome, Except.ok.injEq] at hrec
    subst hrec
    have hs : outcomeStatus ref hex = VerificationStatus.Success ∨
        outcomeStatus ref hex = VerificationStatus.Failed := by
      cases ref with
      | none => exact Or.inl rfl
      | some rh =>
        simp only [outcomeStatus]
        by_cases hc : eqIgnoreAsciiCase (rustTrim rh) hex = true <;> simp [hc]
    refine ⟨hs, ?_, ?_⟩
    · rcases hs with h | h <;> simp [h]
    · intro st sr l hl hpast r hr
      simp only [verifyComplete, Option.some.injEq] at hl
      subst hl
      rcases List.mem_cons.mp hr with h | h
      · subst h
        rcases hs with hx | hx <;> simp [hx]
      · exact hpast r h

/-- C9 witness. -/
theorem no_inprogress_persisted_witness :
    demoRecBlank.status ≠ VerificationStatus.InProgress := by
  have h := no_inprogress_persisted
    (Except.ok ("ab".toList, "/tmp/a".toList, Algorithm.Sha256))
    (refHashOf demoAppBlank.paste_hash) "id1".toList ⟨0, 0⟩ demoRecBlank rfl
  exact h.2.1

/-- C2: for any primitive family obeying the streaming contract with the
documented digest sizes, `compute_hash_for_reader` returns the hex-encoded
(lowercase, no separators) one-shot digest of exactly the concatenation of
the bytes read, of fixed length 64/64/128/64/32 hex chars for
BLAKE3/SHA-256/SHA-512/SHA3-256/MD5, deterministically and independently of
how the stream was split into chunks. -/
theorem compute_hash_correct (H : Algorithm → StreamHasher) (alg : Algorithm)
    (law : (H alg).Lawful) (hfs : FixedSize (H alg) alg)
    (chunks chunks2 : List Bytes) (hsame : chunks.flatten = chunks2.flatten) :
    compute_hash_for_reader H chunks alg =
      hexEncode ((H alg).finalize ((H alg).update (H alg).init chunks.flatten)) ∧
    compute_hash_for_reader H chunks alg = compute_hash_for_reader H chunks2 alg ∧
    (compute_hash_for_reader H chunks alg).length = 2 * digestSizeBytes alg ∧
    ((alg = Algorithm.Blake3 ∨ alg = Algorithm.Sha256 ∨ alg = Algorithm.Sha3_256) →
      (compute_hash_for_reader H chunks alg).length = 64) ∧
    (alg = Algorithm.Sha512 → (compute_hash_for_reader H chunks alg).length = 128) ∧
    (alg = Algorithm.Md5 → (compute_hash_for_reader H chunks alg).length = 32) ∧
    (∀ c ∈ compute_hash_for_reader H chunks alg, isLowerHexChar c = true) := by
  have h1 := compute_hash_eq_oneshot H alg law chunks
  have h2 := compute_hash_eq_oneshot H alg law chunks2
  have hlen : (compute_hash_for_reader H chunks alg).length = 2 * digestSizeBytes alg := by
    rw [h1, hexEncode_length, (hfs _).1]
  refine ⟨h1, by rw [h1, h2, hsame], hlen, ?_, ?_, ?_, ?_⟩
  · rintro (rfl | rfl | rfl) <;> simpa using hlen
  · rintro rfl; simpa using hlen
  · rintro rfl; simpa using hlen
  · rw [h1]; exact hexEncode_lower _

/-- C2 witness: instantiated with the lawful toy primitive and two
chunkings of the same bytes. -/
theorem compute_hash_correct_witness :
    compute_hash_for_reader toyHasher [[1, 2], [3]] Algorithm.Md5 =
      compute_hash_for_reader toyHasher [[1], [2, 3]] Algorithm.Md5 ∧
    (compute_hash_for_reader toyHasher [[1, 2], [3]] Algorithm.Md5).length = 32 := by
  have h := compute_hash_correct toyHasher Algorithm.Md5
    ⟨fun s => List.append_nil s, fun s a b => (List.append_assoc s a b).symm⟩
    (fun s => ⟨by simp [toyHasher], fun b hb => by
      rw [List.eq_of_mem_replicate hb]; exact Nat.mod_lt _ (by omega)⟩)
    [[1, 2], [3]] [[1], [2, 3]] rfl
  exact ⟨h.2.1, h.2.2.2.2.2.1 rfl⟩

/-- C3 counterexample: the first non-blank line `"short abcd"` has two
tokens and no qualifying hex token, yet parsing continues to the second
line and returns its hash — the claim says the result is nothing. -/
theorem first_line_scan_counterexample :
    parse_first_hash_from_text "short abcd\nd41d8cd98f00b204e9800998ecf8427e".toList =
      some "d41d8cd98f00b204e9800998ecf8427e".toList := by decide

/-- C3 amended: when the first non-blank line has two or more tokens, none
all-ASCII-hex of length at least 16, that line yields no candidate but
parsing continues with the remaining lines (instead of stopping). -/
theorem multi_token_line_continues (s : Str) (blanks : List Str) (line : Str)
    (rest : List Str)
    (hlines : rustLines s = blanks ++ line :: rest)
    (hblank : ∀ b ∈ blanks, (rustTrim b).isEmpty = true)
    (hnb : (rustTrim line).isEmpty = false)
    (hmulti : 2 ≤ (splitWhitespace (rustTrim line)).length)
    (hnone : ∀ tok ∈ splitWhitespace (rustTrim line),
      ¬(tok.all isAsciiHexdigit = true ∧ 16 ≤ tok.length)) :
    parse_first_hash_from_text s = hashFromLines rest := by
  have hfind : findHexToken (splitWhitespace (rustTrim line)) = none := by
    rw [findHexToken_eq_find?]
    apply List.find?_eq_none.mpr
    intro tok htok
    have hn := hnone tok htok
    simp only [hexTokenSpec, Bool.and_eq_true, decide_eq_true_eq, not_and]
    intro hall h16
    exact hn ⟨hall, h16⟩
  have hne1 : ¬(splitWhitespace (rustTrim line)).length = 1 := by omega
  unfold parse_first_hash_from_text
  rw [hlines, hashFromLines_blanks blanks _ hblank]
  simp [hashFromLines, hnb, hne1, hfind]

/-- C3 amended witness: the counterexample input, where the second line
supplies the result. -/
theorem multi_token_line_continues_witness :
    parse_first_hash_from_text "short abcd\nd41d8cd98f00b204e9800998ecf8427e".toList =
      hashFromLines ["d41d8cd98f00b204e9800998ecf8427e".toList] :=
  multi_token_line_continues _ [] "short abcd".toList
    ["d41d8cd98f00b204e9800998ecf8427e".toList] (by decide) (by decide) (by decide)
    (by decide) (by decide)

/-- C4: with blank lines skipped, a first non-blank line with exactly one
token is returned verbatim (no hex validation); with several tokens the
leftmost all-ASCII-hex token of length at least 16 is returned. -/
theorem parser_line_conventions (s : Str) (blanks : List Str) (line : Str)
    (rest : List Str)
    (hlines : rustLines s = blanks ++ line :: rest)
    (hblank : ∀ b ∈ blanks, (rustTrim b).isEmpty = true)
    (hnb : (rustTrim line).isEmpty = false) :
    (∀ tok, splitWhitespace (rustTrim line) = [tok] →
      parse_first_hash_from_text s = some tok) ∧
    (2 ≤ (splitWhitespace (rustTrim line)).length →
      (∃ tok ∈ splitWhitespace (rustTrim line), hexTokenSpec tok = true) →
      parse_first_hash_from_text s =
        (splitWhitespace (rustTrim line)).find? hexTokenSpec) := by
  constructor
  · intro tok htok
    unfold parse_first_hash_from_text
    rw [hlines, hashFromLines_blanks blanks _ hblank]
    simp [hashFromLines, hnb, htok]
  · rintro hlen ⟨tok, htok, hq⟩
    have hne1 : ¬(splitWhitespace (rustTrim line)).length = 1 := by omega
    have hsome : ((splitWhitespace (rustTrim line)).find? hexTokenSpec).isSome := by
      rw [List.find?_isSome]
      exact ⟨tok, htok, hq⟩
    obtain ⟨x, hx⟩ := Option.isSome_iff_exists.mp hsome
    unfold parse_first_hash_from_text
    rw [hlines, hashFromLines_blanks blanks _ hblank]
    simp [hashFromLines, hnb, hne1, findHexToken_eq_find?, hx]

/-- C4 witness: a single-token non-hex line is returned verbatim, and a
`filename hash` line returns its leftmost qualifying token. -/
theorem parser_line_conventions_witness :
    parse_first_hash_from_text "zzzz".toList = some "zzzz".toList ∧
    parse_first_hash_from_text "myfile.bin d41d8cd98f00b204e9800998ecf8427e".toList =
      (splitWhitespace
        (rustTrim "myfile.bin d41d8cd98f00b204e9800998ecf8427e".toList)).find?
        hexTokenSpec := by
  constructor
  · exact (parser_line_conventions _ [] "zzzz".toList [] (by decide) (by decide)
      (by decide)).1 "zzzz".toList (by decide)
  · exact (parser_line_conventions _ [] _ [] (by decide) (by decide) (by decide)).2
      (by decide) (by decide)

/-- C5: `load_all` is a total function of the file state (it never raises);
a missing history file yields the empty sequence, and an existing file
whose contents fail to parse or decode as a record list also yields the
empty sequence. -/
theorem load_all_fallback (parse : Str → Option Json) (readResult : Option Str)
    (s : Str) (hbad : (parse s).bind recordsFromJson = none) :
    load_all parse false readResult = [] ∧
    load_all parse true (some s) = [] := by
  constructor
  · rfl
  · simp [load_all, hbad]

/-- C5 witness: garbage bytes in an existing file load as the empty
sequence. -/
theorem load_all_fallback_witness :
    load_all jsonParse true (some "garbage!!".toList) = [] :=
  (load_all_fallback jsonParse none "garbage!!".toList rfl).2

/-- C6: saving a record sequence and loading it back reproduces it
field-for-field and in order — the timestamp at second precision, having
been serialized as the integer count of seconds since the Unix epoch — and
exactly when the timestamps carry no subsecond part the reload is the
identity. -/
theorem save_load_roundtrip (print : Json → Str) (parse : Str → Option Json)
    (rs : List VerificationRecord)
    (hparse : parse (print (recordsToJson rs)) = some (recordsToJson rs)) :
    load_all parse true (some (save_all print rs)) = rs.map truncRecord ∧
    (∀ r, (truncRecord r).id = r.id ∧ (truncRecord r).file_name = r.file_name ∧
      (truncRecord r).file_path = r.file_path ∧
      (truncRecord r).algorithm = r.algorithm ∧
      (truncRecord r).computed_hash = r.computed_hash ∧
      (truncRecord r).reference_hash = r.reference_hash ∧
      (truncRecord r).status = r.status ∧
      (truncRecord r).timestamp.secs = r.timestamp.secs) ∧
    (∀ r ∈ rs, r.timestamp.nanos = 0 → truncRecord r = r) ∧
    (∀ r ∈ rs, ∃ fields, recordToJson r = Json.obj fields ∧
      jLookup "timestamp".toList fields = some (Json.num r.timestamp.secs)) := by
  refine ⟨?_, ?_, ?_, ?_⟩
  · have hload : load_all parse true (some (save_all print rs)) =
        ((parse (print (recordsToJson rs))).bind recordsFromJson).getD [] := rfl
    rw [hload, hparse]
    simp [recordsFromJson, recordsToJson, recordListFromJson_map]
  · intro r
    exact ⟨rfl, rfl, rfl, rfl, rfl, rfl, rfl, rfl⟩
  · intro r _ h
    obtain ⟨id, fn, fp, alg, ch, rh, st, ⟨secs, nanos⟩⟩ := r
    simp only at h
    subst h
    rfl
  · intro r _
    exact ⟨_, rfl, rfl⟩

/-- C6 witness: a concrete one-record history round-trips through the
concrete printer and parser. -/
theorem save_load_roundtrip_witness :
    load_all jsonParse true (some (save_all jsonPrint [demoRecRef])) =
      [demoRecRef].map truncRecord :=
  (save_load_roundtrip jsonPrint jsonParse [demoRecRef] rfl).1
